import Mathlib

set_option maxHeartbeats 1000000
set_option maxRecDepth 4000

/-!
Verification development for a command-line contact manager
(single source file `task-01.py`).

The Python program stores contact records (name, phones, birthday) in an
address book, computes upcoming birthdays inside a rolling window with a
weekend shift, and persists the book with `pickle`.

This file shallowly embeds the data model and the operations of the source:
* Python `datetime.date` values become the `Date` structure below, with
  ordinal arithmetic (`toOrdinal`) matching `date.toordinal`, `weekday`
  matching `date.weekday` (Monday = 0), and lexicographic comparison
  matching `date` ordering;
* `datetime.strptime(value, "%d.%m.%Y")` becomes `parseDDMMYYYY`, which
  follows CPython's `_strptime` field regexes: day `3[01]|[12]\d|0[1-9]|[1-9]`,
  month `1[0-2]|0[1-9]|[1-9]`, year exactly four digits, then the range
  check performed by the `date` constructor;
* the class constructors `Name`, `Phone`, `Birthday` become `nameInit`,
  `phoneInit`, `birthdayInit`, returning `Except` where Python raises
  `ValueError`;
* mutation of records and of the book is rendered in state-passing style:
  each operation returns the updated value, and a raised exception becomes
  an `Except.error` carrying the exception message, in which case no updated
  value is produced (matching the source, where the exception is raised by
  the `Phone(...)`/`date(...)` constructor before any mutation happens).
-/

/-- A calendar date, as Python's `datetime.date` (year, month, day). -/
structure Date where
  year : Nat
  month : Nat
  day : Nat
deriving DecidableEq, Repr

/-- Gregorian leap-year rule, as `calendar.isleap` / the rule inside
`datetime.date`. -/
def isLeapYear (y : Nat) : Bool :=
  decide (y % 4 = 0 ∧ (y % 100 ≠ 0 ∨ y % 400 = 0))

/-- Number of days of month `m` in year `y` (as `datetime`'s internal
`_days_in_month`). -/
def daysInMonth (y m : Nat) : Nat :=
  if m = 2 then (if isLeapYear y then 29 else 28)
  else if m = 4 ∨ m = 6 ∨ m = 9 ∨ m = 11 then 30
  else 31

/-- The validity check performed by the `datetime.date` constructor:
`MINYEAR <= year` (the upper bound `9999` never matters in this
development: every year handled below comes from a four-digit field or
from `today`), `1 <= month <= 12`, `1 <= day <= days_in_month`. -/
def dateValid (d : Date) : Bool :=
  decide (1 ≤ d.year ∧ d.year ≤ 9999 ∧ 1 ≤ d.month ∧ d.month ≤ 12 ∧
    1 ≤ d.day ∧ d.day ≤ daysInMonth d.year d.month)

/-- Days in all years strictly before year `y`, as `datetime`'s
`_days_before_year`. -/
def daysBeforeYear (y : Nat) : Nat :=
  365 * (y - 1) + (y - 1) / 4 - (y - 1) / 100 + (y - 1) / 400

/-- Days in year `y` strictly before month `m`, as `datetime`'s
`_days_before_month`. -/
def daysBeforeMonth (y m : Nat) : Nat :=
  ((List.range (m - 1)).map (fun i => daysInMonth y (i + 1))).sum

/-- Proleptic Gregorian ordinal of a date, as `date.toordinal`
(`0001-01-01` has ordinal 1). -/
def toOrdinal (d : Date) : Nat :=
  daysBeforeYear d.year + daysBeforeMonth d.year d.month + d.day

/-- Day of week with Monday = 0 .. Sunday = 6, as `date.weekday`. -/
def weekday (d : Date) : Nat :=
  (toOrdinal d + 6) % 7

/-- Strict ordering of dates, as Python's `date.__lt__` (lexicographic on
year, month, day). -/
def dateLt (a b : Date) : Bool :=
  decide (a.year < b.year ∨ (a.year = b.year ∧
    (a.month < b.month ∨ (a.month = b.month ∧ a.day < b.day))))

/-- The calendar successor of a valid date. -/
def nextDay (d : Date) : Date :=
  if d.day < daysInMonth d.year d.month then ⟨d.year, d.month, d.day + 1⟩
  else if d.month < 12 then ⟨d.year, d.month + 1, 1⟩
  else ⟨d.year + 1, 1, 1⟩

/-- `d + timedelta(days = n)` for a valid date `d` and `n ≥ 0`, modelled as
`n`-fold calendar successor (which agrees with Python's
`fromordinal (toordinal d + n)` on valid dates). -/
def addDays (n : Nat) (d : Date) : Date :=
  match n with
  | 0 => d
  | n + 1 => addDays n (nextDay d)

/-- `(future - today).days` of Python's `timedelta`: signed difference of
ordinals. -/
def daysUntil (future today : Date) : Int :=
  (toOrdinal future : Int) - (toOrdinal today : Int)

/-- Zero-pad a number to two digits, as `strftime` field `%d` / `%m`. -/
def pad2 (n : Nat) : String :=
  if n < 10 then "0" ++ toString n else toString n

/-- Zero-pad a number to four digits, as `strftime` field `%Y`. -/
def pad4 (n : Nat) : String :=
  if n < 10 then "000" ++ toString n
  else if n < 100 then "00" ++ toString n
  else if n < 1000 then "0" ++ toString n
  else toString n

/-- `date.strftime("%d.%m.%Y")`. -/
def formatDate (d : Date) : String :=
  pad2 d.day ++ "." ++ pad2 d.month ++ "." ++ pad4 d.year

/-- ASCII decimal digit test (`[0-9]`). -/
def isAsciiDigit (c : Char) : Bool :=
  decide ('0' ≤ c ∧ c ≤ '9')

/-- Numeric value of an ASCII digit character. -/
def digitVal (c : Char) : Nat :=
  c.toNat - 48

/-- One field of CPython's `_strptime` for `%d` (`maxv = 31`, regex
`3[01]|[12]\d|0[1-9]|[1-9]`) and `%m` (`maxv = 12`, regex
`1[0-2]|0[1-9]|[1-9]`): two digits forming a value in `1..maxv`, or else a
single digit `1..9`.  When two digits form a value outside `1..maxv` the
regex would fall back to the one-digit alternative and then fail on the
following (digit) character, so returning `none` is extensionally the same. -/
def parseDayMonth (maxv : Nat) : List Char → Option (Nat × List Char)
  | c1 :: c2 :: rest =>
    if isAsciiDigit c1 && isAsciiDigit c2 then
      let n := digitVal c1 * 10 + digitVal c2
      if 1 ≤ n && n ≤ maxv then some (n, rest) else none
    else if isAsciiDigit c1 && 1 ≤ digitVal c1 then
      some (digitVal c1, c2 :: rest)
    else none
  | [c1] =>
    if isAsciiDigit c1 && 1 ≤ digitVal c1 then some (digitVal c1, []) else none
  | [] => none

/-- The `%Y` field of CPython's `_strptime`: exactly four digits, which must
exhaust the rest of the input (`strptime` raises on unconverted data). -/
def parseYear4 : List Char → Option Nat
  | [a, b, c, d] =>
    if isAsciiDigit a && isAsciiDigit b && isAsciiDigit c && isAsciiDigit d then
      some (digitVal a * 1000 + digitVal b * 100 + digitVal c * 10 + digitVal d)
    else none
  | _ => none

/-- `datetime.strptime(s, "%d.%m.%Y").date()`: match day, `.`, month, `.`,
four-digit year against the whole string, then the `date` constructor's
range check (`none` where Python raises `ValueError`). -/
def parseDDMMYYYY (s : String) : Option Date :=
  match parseDayMonth 31 s.toList with
  | some (d, '.' :: rest1) =>
    match parseDayMonth 12 rest1 with
    | some (m, '.' :: rest2) =>
      match parseYear4 rest2 with
      | some y => if dateValid ⟨y, m, d⟩ then some ⟨y, m, d⟩ else none
      | none => none
    | _ => none
  | _ => none

/-- Single-character case of Python's `str.isdigit`.  Python accepts every
character whose Unicode `Numeric_Type` is `Digit` or `Decimal`, not only
ASCII `0-9`.  The model covers the character ranges exercised in this
development: ASCII digits and the Arabic-Indic decimal digits
`U+0660`..`U+0669` (decimal digits in the Unicode database, hence
`isdigit`-true in Python); all other characters are treated as non-digits. -/
def pyCharIsDigit (c : Char) : Bool :=
  isAsciiDigit c || decide (0x660 ≤ c.toNat ∧ c.toNat ≤ 0x669)

/-- Python's `str.isdigit`: false on the empty string, else true iff every
character is a digit character. -/
def pyStrIsDigit (s : String) : Bool :=
  !s.toList.isEmpty && s.toList.all pyCharIsDigit

/-- `Name.__init__` (task-01.py lines 14-18): raises on a falsy (empty)
string, else stores the value. -/
def nameInit (value : String) : Except String String :=
  if value = "" then Except.error "Name cannot be empty." else Except.ok value

/-- `Phone.__init__` (task-01.py lines 21-25):
`if not value.isdigit() or len(value) != 10: raise ValueError(...)`. -/
def phoneInit (value : String) : Except String String :=
  if !pyStrIsDigit value || value.length ≠ 10 then
    Except.error "Phone number must be a 10-digit number."
  else Except.ok value

/-- `Birthday.__init__` (task-01.py lines 28-36), with `datetime.today()`
passed in as the `today` parameter.  The future-date check raises a
`ValueError` inside the same `try` block as the parse, and the `except
ValueError` handler replaces either error with the parse-failure message, so
both failure paths carry "Invalid date format. Use DD.MM.YYYY". -/
def birthdayInit (value : String) (today : Date) : Except String String :=
  match parseDDMMYYYY value with
  | none => Except.error "Invalid date format. Use DD.MM.YYYY"
  | some d =>
    if dateLt today d then Except.error "Invalid date format. Use DD.MM.YYYY"
    else Except.ok value

/-- `Record` (task-01.py lines 39-61): a validated name, the ordered phone
list (each element a validated 10-digit value), and the optional stored
birthday string. -/
structure Record where
  name : String
  phones : List String
  birthday : Option String
deriving DecidableEq, Repr

/-- `Record.__init__`: validates the name, starts with no phones and no
birthday. -/
def recordNew (name : String) : Except String Record :=
  (nameInit name).map fun n => ⟨n, [], none⟩

/-- `Record.add_phone` (lines 45-46): `self.phones.append(Phone(phone))` —
the `Phone` constructor runs (and may raise) before the append. -/
def add_phone (r : Record) (phone : String) : Except String Record :=
  (phoneInit phone).map fun v => { r with phones := r.phones ++ [v] }

/-- The loop of `Record.change_phone` (lines 48-53) over the phone list:
replace the first element equal to `old` by `Phone(new)` and return the
"changed" message; if no element matches, return the "not found" message.
`Phone(new)` is only constructed (and can only raise) at the first match. -/
def changePhoneList : List String → String → String → Except String (List String × String)
  | [], _, _ =>
    Except.ok ([], "Old phone number not found.")
  | p :: ps, old, new =>
    if p = old then
      match phoneInit new with
      | Except.error e => Except.error e
      | Except.ok v =>
        Except.ok (v :: ps, "Phone number " ++ old ++ " changed to " ++ new ++ ".")
    else
      match changePhoneList ps old new with
      | Except.error e => Except.error e
      | Except.ok (ps2, msg) => Except.ok (p :: ps2, msg)

/-- `Record.change_phone` at the record level. -/
def change_phone (r : Record) (old new : String) : Except String (Record × String) :=
  (changePhoneList r.phones old new).map fun x => ({ r with phones := x.1 }, x.2)

/-- `Record.add_birthday` (lines 55-56). -/
def add_birthday (r : Record) (value : String) (today : Date) : Except String Record :=
  (birthdayInit value today).map fun v => { r with birthday := some v }

/-- `AddressBook.data`: a Python dict from name to record, modelled as an
insertion-ordered association list with unique keys. -/
abbrev AddressBook := List (String × Record)

/-- `AddressBook.find` (lines 68-69): `self.data.get(name)`. -/
def findRecord (book : AddressBook) (name : String) : Option Record :=
  (book.find? (fun kv => kv.1 = name)).map Prod.snd

/-- `AddressBook.add_record` (lines 65-66): dict assignment keyed by the
record's name — replaces in place if the key exists, else appends. -/
def add_record (book : AddressBook) (r : Record) : AddressBook :=
  if book.any (fun kv => kv.1 = r.name) then
    book.map (fun kv => if kv.1 = r.name then (kv.1, r) else kv)
  else book ++ [(r.name, r)]

/-- `date.replace(year = y)` (used at task-01.py lines 80 and 83): rebuilds
the date through the validating constructor; raises
"day is out of range for month" for Feb 29 in a non-leap year. -/
def replaceYear (d : Date) (y : Nat) : Except String Date :=
  if dateValid ⟨y, d.month, d.day⟩ then Except.ok ⟨y, d.month, d.day⟩
  else Except.error "day is out of range for month"

/-- The weekend shift of `get_upcoming_birthdays` (lines 88-89):
`if birthday.weekday() in (5, 6): birthday += timedelta(days=(7 - birthday.weekday()))`. -/
def shiftWeekend (d : Date) : Date :=
  if weekday d = 5 ∨ weekday d = 6 then addDays (7 - weekday d) d else d

/-- The body of the `for record in self.data.values()` loop of
`get_upcoming_birthdays` (lines 76-96) for one record: `Except.error` where
the Python iteration would raise, `Except.ok none` where it appends nothing,
`Except.ok (some entry)` where it appends `entry`. -/
def processRecord (today : Date) (days : Nat) (r : Record) :
    Except String (Option (String × String)) :=
  match r.birthday with
  | none => Except.ok none
  | some s =>
    match parseDDMMYYYY s with
    | none => Except.error ("time data " ++ s ++ " does not match format %d.%m.%Y")
    | some bd =>
      match replaceYear bd today.year with
      | Except.error e => Except.error e
      | Except.ok b1 =>
        match (if dateLt b1 today then replaceYear b1 (today.year + 1) else Except.ok b1) with
        | Except.error e => Except.error e
        | Except.ok b2 =>
          if 0 ≤ daysUntil b2 today ∧ daysUntil b2 today ≤ (days : Int) then
            Except.ok (some (r.name, formatDate (shiftWeekend b2)))
          else Except.ok none

/-- `AddressBook.get_upcoming_birthdays` (lines 71-98), with
`datetime.today()` passed in as `today`: iterate over the records in
insertion order, appending the produced entries; a raised `ValueError`
aborts the whole call. -/
def get_upcoming_birthdays (book : AddressBook) (today : Date) (days : Nat) :
    Except String (List (String × String)) :=
  match book with
  | [] => Except.ok []
  | (_, r) :: rest =>
    match processRecord today days r with
    | Except.error e => Except.error e
    | Except.ok none => get_upcoming_birthdays rest today days
    | Except.ok (some entry) =>
      match get_upcoming_birthdays rest today days with
      | Except.error e => Except.error e
      | Except.ok l => Except.ok (entry :: l)

/-- The `add_contact` handler (task-01.py lines 126-138), for a two-element
argument list `(name, phone)`: if the name is found, mutate the found record
by appending the phone (the dict keeps the same entry, updated in place);
otherwise build a fresh record, add the phone, and insert it. -/
def add_contact (name phone : String) (book : AddressBook) :
    Except String (AddressBook × String) :=
  match findRecord book name with
  | some r =>
    match add_phone r phone with
    | Except.error e => Except.error e
    | Except.ok r2 =>
      Except.ok (book.map (fun kv => if kv.1 = name then (kv.1, r2) else kv),
        "Added phone " ++ phone ++ " to " ++ name ++ ".")
  | none =>
    match recordNew name with
    | Except.error e => Except.error e
    | Except.ok r0 =>
      match add_phone r0 phone with
      | Except.error e => Except.error e
      | Except.ok r1 =>
        Except.ok (add_record book r1,
          "New contact " ++ name ++ " added with phone " ++ phone ++ ".")

/-- The persistence medium: a mapping from file name to the address book
value pickled into that file.  `pickle.dump` / `pickle.load` are external
library collaborators; following the spec's contract for the persistence
adapter (round-trip fidelity of serialization), a pickled file is modelled
as holding the serialized directory value itself. -/
abbrev FileSystem := String → Option AddressBook

/-- `AddressBook.save_data` (lines 100-102): write the pickled book to
`filename`. -/
def save_data (book : AddressBook) (fs : FileSystem) (filename : String) : FileSystem :=
  fun p => if p = filename then some book else fs p

/-- `AddressBook.load_data` (lines 104-109): unpickle the file, or return a
fresh empty `AddressBook` when the file does not exist. -/
def load_data (fs : FileSystem) (filename : String) : AddressBook :=
  match fs filename with
  | some b => b
  | none => []

/-- The next occurrence of a birthday relative to a reference date `today`,
as the specification describes it: the date `(today.year, b.month, b.day)`,
advanced to `(today.year + 1, b.month, b.day)` exactly when it is strictly
before `today`. -/
def nextOccurrence (b today : Date) : Date :=
  if dateLt ⟨today.year, b.month, b.day⟩ today then ⟨today.year + 1, b.month, b.day⟩
  else ⟨today.year, b.month, b.day⟩

deriving instance DecidableEq for Except

/-- Well-formedness of a date for calendar arithmetic (no upper year bound:
ordinal arithmetic is uniform past `MAXYEAR`). -/
def dateWF (d : Date) : Prop :=
  1 ≤ d.year ∧ 1 ≤ d.month ∧ d.month ≤ 12 ∧ 1 ≤ d.day ∧ d.day ≤ daysInMonth d.year d.month

theorem dateWF_of_valid (d : Date) (h : dateValid d = true) : dateWF d := by
  simp only [dateValid, decide_eq_true_eq] at h
  exact ⟨h.1, h.2.2.1, h.2.2.2.1, h.2.2.2.2.1, h.2.2.2.2.2⟩

theorem daysInMonth_pos (y m : Nat) : 1 ≤ daysInMonth y m := by
  unfold daysInMonth
  split
  · split <;> norm_num
  · split <;> norm_num

theorem daysBeforeMonth_succ (y m : Nat) (h : 1 ≤ m) :
    daysBeforeMonth y (m + 1) = daysBeforeMonth y m + daysInMonth y m := by
  unfold daysBeforeMonth
  have h1 : m + 1 - 1 = (m - 1) + 1 := by omega
  have h2 : m - 1 + 1 = m := by omega
  rw [h1, List.range_succ, List.map_append, List.sum_append]
  simp only [List.map_cons, List.map_nil, List.sum_cons, List.sum_nil, h2]
  omega

theorem daysBeforeYear_succ (y : Nat) (h : 1 ≤ y) :
    daysBeforeYear (y + 1) = daysBeforeYear y + (if isLeapYear y then 366 else 365) := by
  unfold daysBeforeYear
  simp only [isLeapYear, decide_eq_true_eq]
  split
  next hleap => omega
  next hleap => omega

theorem daysBeforeMonth_twelve (y : Nat) :
    daysBeforeMonth y 12 + 31 = if isLeapYear y then 366 else 365 := by
  unfold daysBeforeMonth
  have hr : List.range (12 - 1) = [0, 1, 2, 3, 4, 5, 6, 7, 8, 9, 10] := rfl
  rw [hr]
  simp only [List.map_cons, List.map_nil, List.sum_cons, List.sum_nil, daysInMonth]
  norm_num
  split <;> norm_num

theorem daysBeforeYear_succ' (y : Nat) (h : 1 ≤ y) :
    daysBeforeYear (y + 1) = daysBeforeYear y + daysBeforeMonth y 12 + 31 := by
  have h1 := daysBeforeYear_succ y h
  have h2 := daysBeforeMonth_twelve y
  by_cases hl : isLeapYear y = true
  · rw [hl] at h1 h2; simp at h1 h2; omega
  · rw [Bool.not_eq_true] at hl; rw [hl] at h1 h2; simp at h1 h2; omega

theorem nextDay_wf (d : Date) (h : dateWF d) : dateWF (nextDay d) := by
  obtain ⟨hy1, hm1, hm2, hd1, hd2⟩ := h
  unfold nextDay
  split
  next hlt =>
    exact ⟨hy1, hm1, hm2, by show 1 ≤ d.day + 1; omega,
      by show d.day + 1 ≤ daysInMonth d.year d.month; omega⟩
  next =>
    split
    next hm12 =>
      exact ⟨hy1, by show 1 ≤ d.month + 1; omega, by show d.month + 1 ≤ 12; omega,
        le_refl 1, daysInMonth_pos _ _⟩
    next =>
      exact ⟨by show 1 ≤ d.year + 1; omega, le_refl 1, by norm_num,
        le_refl 1, daysInMonth_pos _ _⟩

theorem toOrdinal_nextDay (d : Date) (h : dateWF d) :
    toOrdinal (nextDay d) = toOrdinal d + 1 := by
  obtain ⟨hy1, hm1, hm2, hd1, hd2⟩ := h
  unfold nextDay
  split
  next hlt =>
    simp only [toOrdinal]
    omega
  next hge =>
    split
    next hm12 =>
      have hday : d.day = daysInMonth d.year d.month := by omega
      simp only [toOrdinal]
      rw [daysBeforeMonth_succ d.year d.month hm1]
      omega
    next hm12 =>
      have hm : d.month = 12 := by omega
      have h31 : daysInMonth d.year 12 = 31 := by norm_num [daysInMonth]
      have hdim : d.day = daysInMonth d.year d.month := by omega
      have hday : d.day = 31 := by rw [hdim, hm, h31]
      simp only [toOrdinal]
      have hb1 : daysBeforeMonth (d.year + 1) 1 = 0 := by
        simp [daysBeforeMonth]
      have hy := daysBeforeYear_succ' d.year hy1
      have hbm : daysBeforeMonth d.year d.month = daysBeforeMonth d.year 12 := by
        rw [hm]
      omega

theorem toOrdinal_addDays (n : Nat) :
    ∀ d : Date, dateWF d → toOrdinal (addDays n d) = toOrdinal d + n := by
  induction n with
  | zero => intro d _; rfl
  | succ n ih =>
    intro d hd
    show toOrdinal (addDays n (nextDay d)) = toOrdinal d + (n + 1)
    rw [ih (nextDay d) (nextDay_wf d hd), toOrdinal_nextDay d hd]
    omega

theorem weekday_addDays (k : Nat) (d : Date) (h : dateWF d) :
    weekday (addDays k d) = (weekday d + k) % 7 := by
  unfold weekday
  rw [toOrdinal_addDays k d h]
  omega

theorem replaceYear_ok (d : Date) (y : Nat) (d2 : Date)
    (h : replaceYear d y = Except.ok d2) :
    dateValid ⟨y, d.month, d.day⟩ = true ∧ d2 = ⟨y, d.month, d.day⟩ := by
  unfold replaceYear at h
  by_cases hv : dateValid ⟨y, d.month, d.day⟩ = true
  · rw [if_pos hv] at h
    injection h with h2
    exact ⟨hv, h2.symm⟩
  · rw [if_neg hv] at h
    simp at h

/-- Characterization of the loop body on a record whose stored birthday
parses: when it does not raise, the produced optional entry is determined by
the window test on the (unshifted) next occurrence of the birthday. -/
theorem processRecord_parsed (today : Date) (days : Nat) (r : Record) (s : String) (b : Date)
    (hb : r.birthday = some s) (hp : parseDDMMYYYY s = some b)
    (e : Option (String × String)) (hok : processRecord today days r = Except.ok e) :
    dateValid (nextOccurrence b today) = true ∧
    e = (if 0 ≤ daysUntil (nextOccurrence b today) today ∧
           daysUntil (nextOccurrence b today) today ≤ (days : Int) then
        some (r.name, formatDate (shiftWeekend (nextOccurrence b today)))
      else none) := by
  unfold processRecord at hok
  rw [hb] at hok
  simp only [hp] at hok
  cases hry : replaceYear b today.year with
  | error e0 => rw [hry] at hok; simp at hok
  | ok b1 =>
    obtain ⟨h1, hb1⟩ := replaceYear_ok b today.year b1 hry
    rw [hry] at hok
    simp only [] at hok
    subst hb1
    by_cases h2 : dateLt ⟨today.year, b.month, b.day⟩ today = true
    · rw [if_pos h2] at hok
      cases hry2 : replaceYear ⟨today.year, b.month, b.day⟩ (today.year + 1) with
      | error e0 => rw [hry2] at hok; simp at hok
      | ok b2 =>
        obtain ⟨h3, hb2⟩ := replaceYear_ok _ _ b2 hry2
        simp only [] at h3 hb2
        rw [hry2] at hok
        simp only [] at hok
        subst hb2
        have hnext : nextOccurrence b today = ⟨today.year + 1, b.month, b.day⟩ := by
          unfold nextOccurrence
          rw [if_pos h2]
        rw [hnext]
        refine ⟨h3, ?_⟩
        split at hok
        next h4 =>
          injection hok with he
          rw [← he, if_pos h4]
        next h4 =>
          injection hok with he
          rw [← he, if_neg h4]
    · rw [if_neg h2] at hok
      simp only [] at hok
      have hnext : nextOccurrence b today = ⟨today.year, b.month, b.day⟩ := by
        unfold nextOccurrence
        rw [if_neg h2]
      rw [hnext]
      refine ⟨h1, ?_⟩
      split at hok
      next h4 =>
        injection hok with he
        rw [← he, if_pos h4]
      next h4 =>
        injection hok with he
        rw [← he, if_neg h4]

/-- A produced entry always carries the record's name and the formatted
shifted next occurrence, and its production implies the window test. -/
theorem processRecord_some (today : Date) (days : Nat) (r : Record)
    (entry : String × String)
    (hok : processRecord today days r = Except.ok (some entry)) :
    ∃ s b, r.birthday = some s ∧ parseDDMMYYYY s = some b ∧
      dateValid (nextOccurrence b today) = true ∧
      entry = (r.name, formatDate (shiftWeekend (nextOccurrence b today))) ∧
      0 ≤ daysUntil (nextOccurrence b today) today ∧
      daysUntil (nextOccurrence b today) today ≤ (days : Int) := by
  cases hb : r.birthday with
  | none =>
    unfold processRecord at hok
    rw [hb] at hok
    simp at hok
  | some s =>
    cases hp : parseDDMMYYYY s with
    | none =>
      unfold processRecord at hok
      rw [hb] at hok
      simp only [hp] at hok
      simp at hok
    | some b =>
      obtain ⟨hv, he⟩ := processRecord_parsed today days r s b hb hp _ hok
      by_cases hc : (0 ≤ daysUntil (nextOccurrence b today) today ∧
          daysUntil (nextOccurrence b today) today ≤ (days : Int))
      · rw [if_pos hc] at he
        injection he with he2
        exact ⟨s, b, rfl, hp, hv, he2, hc.1, hc.2⟩
      · rw [if_neg hc] at he
        cases he

/-- Every name in the output is the name of some record of the book. -/
theorem getUB_names (today : Date) (days : Nat) :
    ∀ (book : AddressBook) (l : List (String × String)),
      get_upcoming_birthdays book today days = Except.ok l →
      ∀ nm ds, (nm, ds) ∈ l → nm ∈ book.map (fun kv => kv.2.name) := by
  intro book
  induction book with
  | nil =>
    intro l hok nm ds hm
    unfold get_upcoming_birthdays at hok
    injection hok with hl
    rw [← hl] at hm
    cases hm
  | cons kv rest ih =>
    obtain ⟨k0, r0⟩ := kv
    intro l hok nm ds hm
    unfold get_upcoming_birthdays at hok
    cases hpr : processRecord today days r0 with
    | error e => rw [hpr] at hok; simp at hok
    | ok eo =>
      rw [hpr] at hok
      cases eo with
      | none =>
        simp only [] at hok
        exact List.mem_cons_of_mem _ (ih l hok nm ds hm)
      | some entry =>
        simp only [] at hok
        cases hrest : get_upcoming_birthdays rest today days with
        | error e => rw [hrest] at hok; simp at hok
        | ok l2 =>
          rw [hrest] at hok
          injection hok with hl
          rw [← hl] at hm
          rcases List.mem_cons.mp hm with hh | ht
          · obtain ⟨s0, b0, _, _, _, heq, _, _⟩ := processRecord_some today days r0 entry hpr
            rw [heq] at hh
            injection hh with hh1 hh2
            rw [List.map_cons, hh1]
            exact List.mem_cons_self _ _
          · exact List.mem_cons_of_mem _ (ih l2 hrest nm ds ht)

/-- If the whole iteration succeeds, the body succeeded on every record. -/
theorem getUB_process_ok (today : Date) (days : Nat) :
    ∀ (book : AddressBook) (l : List (String × String)),
      get_upcoming_birthdays book today days = Except.ok l →
      ∀ kv ∈ book, ∃ e, processRecord today days kv.2 = Except.ok e := by
  intro book
  induction book with
  | nil => intro l _ kv hkv; cases hkv
  | cons kv0 rest ih =>
    obtain ⟨k0, r0⟩ := kv0
    intro l hok kv hkv
    unfold get_upcoming_birthdays at hok
    cases hpr : processRecord today days r0 with
    | error e => rw [hpr] at hok; simp at hok
    | ok eo =>
      rw [hpr] at hok
      rcases List.mem_cons.mp hkv with heq | hmem
      · rw [heq]
        exact ⟨eo, hpr⟩
      · cases eo with
        | none =>
          simp only [] at hok
          exact ih l hok kv hmem
        | some entry =>
          simp only [] at hok
          cases hrest : get_upcoming_birthdays rest today days with
          | error e => rw [hrest] at hok; simp at hok
          | ok l2 => exact ih l2 hrest kv hmem

/-- Membership characterization of the output of `get_upcoming_birthdays`:
for a record of the book (with unique record names) whose stored birthday
parses to `b`, an entry with that record's name is in the output exactly
when the window test holds for the next occurrence of `b`, and its date
string is the formatted weekend-shifted next occurrence. -/
theorem getUB_mem_char (today : Date) (days : Nat) :
    ∀ (book : AddressBook) (l : List (String × String)),
      get_upcoming_birthdays book today days = Except.ok l →
      (book.map (fun kv => kv.2.name)).Nodup →
      ∀ k r, (k, r) ∈ book → ∀ s b, r.birthday = some s → parseDDMMYYYY s = some b →
      ∀ ds, ((r.name, ds) ∈ l ↔
        (0 ≤ daysUntil (nextOccurrence b today) today ∧
         daysUntil (nextOccurrence b today) today ≤ (days : Int) ∧
         ds = formatDate (shiftWeekend (nextOccurrence b today)))) := by
  intro book
  induction book with
  | nil => intro l _ _ k r hkr; cases hkr
  | cons kv0 rest ih =>
    obtain ⟨k0, r0⟩ := kv0
    intro l hok hnd k r hkr s b hb hp ds
    rw [List.map_cons, List.nodup_cons] at hnd
    obtain ⟨hnotin, hnd2⟩ := hnd
    unfold get_upcoming_birthdays at hok
    rcases List.mem_cons.mp hkr with heq | hmem
    · injection heq with hk hr
      subst hr
      cases hpr : processRecord today days r with
      | error e => rw [hpr] at hok; simp at hok
      | ok eo =>
        rw [hpr] at hok
        obtain ⟨hv, he⟩ := processRecord_parsed today days r s b hb hp eo hpr
        by_cases hc : (0 ≤ daysUntil (nextOccurrence b today) today ∧
            daysUntil (nextOccurrence b today) today ≤ (days : Int))
        · rw [if_pos hc] at he
          subst he
          simp only [] at hok
          cases hrest : get_upcoming_birthdays rest today days with
          | error e => rw [hrest] at hok; simp at hok
          | ok l2 =>
            rw [hrest] at hok
            injection hok with hl
            subst hl
            constructor
            · intro hmm
              rcases List.mem_cons.mp hmm with hh | ht
              · injection hh with hh1 hh2
                exact ⟨hc.1, hc.2, hh2⟩
              · exact absurd (getUB_names today days rest l2 hrest r.name ds ht) hnotin
            · rintro ⟨_, _, rfl⟩
              exact List.mem_cons_self _ _
        · rw [if_neg hc] at he
          subst he
          simp only [] at hok
          constructor
          · intro hmm
            exact absurd (getUB_names today days rest l hok r.name ds hmm) hnotin
          · rintro ⟨hc1, hc2, _⟩
            exact absurd ⟨hc1, hc2⟩ hc
    · have hname : r.name ∈ rest.map (fun kv => kv.2.name) :=
        List.mem_map_of_mem _ hmem
      cases hpr : processRecord today days r0 with
      | error e => rw [hpr] at hok; simp at hok
      | ok eo =>
        rw [hpr] at hok
        cases eo with
        | none =>
          simp only [] at hok
          exact ih l hok hnd2 k r hmem s b hb hp ds
        | some entry =>
          simp only [] at hok
          cases hrest : get_upcoming_birthdays rest today days with
          | error e => rw [hrest] at hok; simp at hok
          | ok l2 =>
            rw [hrest] at hok
            injection hok with hl
            subst hl
            have hchar := ih l2 hrest hnd2 k r hmem s b hb hp ds
            have hentry : entry.1 = r0.name := by
              obtain ⟨s0, b0, _, _, _, heq2, _, _⟩ :=
                processRecord_some today days r0 entry hpr
              rw [heq2]
            constructor
            · intro hmm
              rcases List.mem_cons.mp hmm with hh | ht
              · exfalso
                apply hnotin
                have : r.name = entry.1 := by rw [← hh]
                rw [← this] at hentry
                rw [hentry] at hname
                exact hname
              · exact hchar.mp ht
            · intro hcond
              exact List.mem_cons_of_mem _ (hchar.mpr hcond)

theorem phoneInit_ok_iff (s : String) :
    phoneInit s = Except.ok s ↔ (s.length = 10 ∧ s.toList.all pyCharIsDigit = true) := by
  have hlen : s.toList.length = s.length := rfl
  unfold phoneInit pyStrIsDigit
  cases hall : s.toList.all pyCharIsDigit with
  | false =>
    by_cases h10 : s.length = 10 <;> simp [hall, h10]
  | true =>
    by_cases h10 : s.length = 10
    · have hne : ¬s.data = [] := by
        intro hd
        have h0 : s.length = 0 := by
          rw [← hlen, show s.toList = s.data from rfl, hd]
          rfl
        omega
      simp [hall, hne, h10]
    · simp [hall, h10]

theorem phoneInit_error (s : String)
    (h : ¬(s.length = 10 ∧ s.toList.all pyCharIsDigit = true)) :
    phoneInit s = Except.error "Phone number must be a 10-digit number." := by
  have hcond : (!pyStrIsDigit s || decide (s.length ≠ 10)) = true := by
    rcases not_and_or.mp h with h1 | h2
    · have : decide (s.length ≠ 10) = true := decide_eq_true h1
      rw [this, Bool.or_true]
    · have h3 : s.toList.all pyCharIsDigit = false := by
        cases hx : s.toList.all pyCharIsDigit
        · rfl
        · exact absurd hx h2
      have h4 : pyStrIsDigit s = false := by
        unfold pyStrIsDigit
        rw [h3, Bool.and_false]
      rw [h4]
      rfl
  unfold phoneInit
  rw [if_pos hcond]

theorem add_phone_ok (r : Record) (p : String) (hp : phoneInit p = Except.ok p) :
    add_phone r p = Except.ok { r with phones := r.phones ++ [p] } := by
  unfold add_phone
  rw [hp]
  rfl

theorem changePhoneList_not_found (old new : String) (ps : List String)
    (h : old ∉ ps) :
    changePhoneList ps old new = Except.ok (ps, "Old phone number not found.") := by
  induction ps with
  | nil => rfl
  | cons p ps ih =>
    rw [List.mem_cons] at h
    push_neg at h
    have hp : ¬(p = old) := fun he => h.1 he.symm
    unfold changePhoneList
    rw [if_neg hp, ih h.2]

theorem changePhoneList_found (old new : String)
    (hnew : phoneInit new = Except.ok new) :
    ∀ l1 l2 : List String, old ∉ l1 →
      changePhoneList (l1 ++ old :: l2) old new =
        Except.ok (l1 ++ new :: l2,
          "Phone number " ++ old ++ " changed to " ++ new ++ ".") := by
  intro l1
  induction l1 with
  | nil =>
    intro l2 _
    rw [List.nil_append, List.nil_append]
    unfold changePhoneList
    rw [if_pos rfl, hnew]
  | cons p l1 ih =>
    intro l2 h
    rw [List.mem_cons] at h
    push_neg at h
    have hp : ¬(p = old) := fun he => h.1 he.symm
    rw [List.cons_append, List.cons_append]
    unfold changePhoneList
    rw [if_neg hp, ih l2 h.2]

theorem changePhoneList_error (old bad e : String)
    (hbad : phoneInit bad = Except.error e) (ps : List String) (h : old ∈ ps) :
    changePhoneList ps old bad = Except.error e := by
  induction ps with
  | nil => cases h
  | cons p ps ih =>
    by_cases hp : p = old
    · unfold changePhoneList
      rw [if_pos hp, hbad]
    · have hmem : old ∈ ps := by
        rcases List.mem_cons.mp h with h1 | h2
        · exact absurd h1.symm hp
        · exact h2
      unfold changePhoneList
      rw [if_neg hp, ih hmem]

theorem findRecord_unique (name : String) (r : Record) :
    ∀ book : AddressBook, (book.map Prod.fst).Nodup →
      findRecord book name = some r →
      ∀ kv ∈ book, kv.1 = name → kv.2 = r := by
  intro book
  induction book with
  | nil => intro _ _ kv hkv; cases hkv
  | cons kv0 rest ih =>
    obtain ⟨k0, r0⟩ := kv0
    intro hnd hfind kv hkv hkey
    rw [List.map_cons, List.nodup_cons] at hnd
    obtain ⟨hnotin, hnd2⟩ := hnd
    by_cases h0 : k0 = name
    · have hr : r0 = r := by
        unfold findRecord at hfind
        rw [List.find?_cons_of_pos] at hfind
        · simpa using hfind
        · simp [h0]
      rcases List.mem_cons.mp hkv with heq | hmem
      · rw [heq]; exact hr
      · exfalso
        apply hnotin
        rw [h0, ← hkey]
        have hm2 := List.mem_map_of_mem Prod.fst hmem
        exact hm2
    · have hfind2 : findRecord rest name = some r := by
        unfold findRecord at hfind ⊢
        rw [List.find?_cons_of_neg] at hfind
        · exact hfind
        · simp [h0]
      rcases List.mem_cons.mp hkv with heq | hmem
      · exfalso; apply h0; rw [heq] at hkey; exact hkey
      · exact ih hnd2 hfind2 kv hmem hkey

theorem findRecord_none_keys (name : String) :
    ∀ book : AddressBook, findRecord book name = none →
      ∀ kv ∈ book, ¬(kv.1 = name) := by
  intro book
  induction book with
  | nil => intro _ kv hkv; cases hkv
  | cons kv0 rest ih =>
    obtain ⟨k0, r0⟩ := kv0
    intro hfind kv hkv
    by_cases h0 : k0 = name
    · exfalso
      unfold findRecord at hfind
      rw [List.find?_cons_of_pos] at hfind
      · simp at hfind
      · simp [h0]
    · have hfind2 : findRecord rest name = none := by
        unfold findRecord at hfind ⊢
        rw [List.find?_cons_of_neg] at hfind
        · exact hfind
        · simp [h0]
      rcases List.mem_cons.mp hkv with heq | hmem
      · rw [heq]; exact h0
      · exact ih hfind2 kv hmem

/-- Claim C1: for every record of the book holding a birthday that parses
to `b` and reference date `today`, `get_upcoming_birthdays` (when it returns
a result) includes that record exactly when `0 ≤ days_until ≤ window_days`,
where `days_until` counts days from `today` to the next occurrence of the
birthday, and the next occurrence is `(today.year, b.month, b.day)` advanced
one year exactly when that date is strictly before `today`. -/
theorem get_upcoming_includes_iff_window
    (book : AddressBook) (today : Date) (days : Nat) (l : List (String × String))
    (hok : get_upcoming_birthdays book today days = Except.ok l)
    (hnd : (book.map (fun kv => kv.2.name)).Nodup)
    (k : String) (r : Record) (hkr : (k, r) ∈ book)
    (s : String) (b : Date) (hb : r.birthday = some s) (hp : parseDDMMYYYY s = some b) :
    (∃ ds, (r.name, ds) ∈ l) ↔
      (0 ≤ daysUntil (nextOccurrence b today) today ∧
       daysUntil (nextOccurrence b today) today ≤ (days : Int)) := by
  constructor
  · rintro ⟨ds, hds⟩
    have hc := (getUB_mem_char today days book l hok hnd k r hkr s b hb hp ds).mp hds
    exact ⟨hc.1, hc.2.1⟩
  · intro hc
    exact ⟨formatDate (shiftWeekend (nextOccurrence b today)),
      (getUB_mem_char today days book l hok hnd k r hkr s b hb hp _).mpr
        ⟨hc.1, hc.2, rfl⟩⟩

/-- Witness for C1 at the spec's worked example: today `10.06.2024`, window
7, birthday `12.06.2020` — the record is included. -/
theorem get_upcoming_includes_iff_window_witness :
    ∃ ds, ("Alice", ds) ∈ [("Alice", "12.06.2024")] :=
  (get_upcoming_includes_iff_window
      [("Alice", ⟨"Alice", ["1234567890"], some "12.06.2020"⟩)] ⟨2024, 6, 10⟩ 7
      [("Alice", "12.06.2024")] (by decide) (by decide)
      "Alice" ⟨"Alice", ["1234567890"], some "12.06.2020"⟩ (by decide)
      "12.06.2020" ⟨2020, 6, 12⟩ rfl (by decide)).mpr (by decide)

/-- Claim C2: for every record included by `get_upcoming_birthdays` whose
next occurrence falls on Saturday (weekday 5) or Sunday (weekday 6), the
emitted date is the next occurrence plus `7 - weekday` days — the following
Monday (weekday 0) — formatted `DD.MM.YYYY`; inclusion itself is decided on
the unshifted next occurrence (the inclusion hypothesis `hin` below is
stated on the unshifted date and suffices for membership). -/
theorem weekend_shift_reported_date
    (book : AddressBook) (today : Date) (days : Nat) (l : List (String × String))
    (hok : get_upcoming_birthdays book today days = Except.ok l)
    (hnd : (book.map (fun kv => kv.2.name)).Nodup)
    (k : String) (r : Record) (hkr : (k, r) ∈ book)
    (s : String) (b : Date) (hb : r.birthday = some s) (hp : parseDDMMYYYY s = some b)
    (hin : 0 ≤ daysUntil (nextOccurrence b today) today ∧
           daysUntil (nextOccurrence b today) today ≤ (days : Int))
    (hwk : weekday (nextOccurrence b today) = 5 ∨ weekday (nextOccurrence b today) = 6) :
    (r.name, formatDate (addDays (7 - weekday (nextOccurrence b today))
      (nextOccurrence b today))) ∈ l ∧
    weekday (addDays (7 - weekday (nextOccurrence b today)) (nextOccurrence b today)) = 0 := by
  have hshift : shiftWeekend (nextOccurrence b today) =
      addDays (7 - weekday (nextOccurrence b today)) (nextOccurrence b today) := by
    unfold shiftWeekend
    rw [if_pos hwk]
  constructor
  · have hm := (getUB_mem_char today days book l hok hnd k r hkr s b hb hp
        (formatDate (shiftWeekend (nextOccurrence b today)))).mpr ⟨hin.1, hin.2, rfl⟩
    rw [hshift] at hm
    exact hm
  · obtain ⟨e, hpe⟩ := getUB_process_ok today days book l hok (k, r) hkr
    obtain ⟨hv, _⟩ := processRecord_parsed today days r s b hb hp e hpe
    have hwf := dateWF_of_valid _ hv
    rw [weekday_addDays _ _ hwf]
    rcases hwk with h5 | h6
    · rw [h5]
    · rw [h6]

/-- Witness for C2 at the spec's worked example: birthday `15.06.2020`
lands on Saturday `15.06.2024` and is reported as Monday `17.06.2024`. -/
theorem weekend_shift_reported_date_witness :
    ("Bob", formatDate (addDays
      (7 - weekday (nextOccurrence ⟨2020, 6, 15⟩ ⟨2024, 6, 10⟩))
      (nextOccurrence ⟨2020, 6, 15⟩ ⟨2024, 6, 10⟩))) ∈ [("Bob", "17.06.2024")] ∧
    weekday (addDays (7 - weekday (nextOccurrence ⟨2020, 6, 15⟩ ⟨2024, 6, 10⟩))
      (nextOccurrence ⟨2020, 6, 15⟩ ⟨2024, 6, 10⟩)) = 0 :=
  weekend_shift_reported_date
    [("Bob", ⟨"Bob", ["1234567890"], some "15.06.2020"⟩)] ⟨2024, 6, 10⟩ 7
    [("Bob", "17.06.2024")] (by decide) (by decide)
    "Bob" ⟨"Bob", ["1234567890"], some "15.06.2020"⟩ (by decide)
    "15.06.2020" ⟨2020, 6, 15⟩ rfl (by decide) (by decide) (by decide)

/-- Claim C3 counterexample: the string of the ten Arabic-Indic digits
`U+0660`..`U+0669` does not match `^[0-9]{10}$` (no character is an ASCII
digit), yet phone validation accepts it, because Python's `str.isdigit` is
true for all Unicode decimal digits. -/
theorem phone_accepts_nonascii_digits :
    phoneInit "٠١٢٣٤٥٦٧٨٩" = Except.ok "٠١٢٣٤٥٦٧٨٩" ∧
    "٠١٢٣٤٥٦٧٨٩".toList.all isAsciiDigit = false := by
  constructor
  · decide
  · decide

/-- Claim C3 (amended): phone validation succeeds exactly for strings of
exactly 10 characters all of which Python's `str.isdigit` counts as digits
(a superset of ASCII `0-9` including other Unicode decimal digits), and
fails with the `InvalidPhone` message for every other string. -/
theorem phone_validation_characterization (s : String) :
    (phoneInit s = Except.ok s ↔ (s.length = 10 ∧ s.toList.all pyCharIsDigit = true)) ∧
    (¬(s.length = 10 ∧ s.toList.all pyCharIsDigit = true) →
      phoneInit s = Except.error "Phone number must be a 10-digit number.") :=
  ⟨phoneInit_ok_iff s, phoneInit_error s⟩

/-- Witness for the amended C3 theorem at a concrete failing input. -/
theorem phone_validation_characterization_witness :
    phoneInit "12345" = Except.error "Phone number must be a 10-digit number." :=
  (phone_validation_characterization "12345").2 (by decide)

/-- Claim C4: for every record and strings `old`, `new` with `new` a valid
phone, `change_phone` replaces the first phone equal to `old` (leaving every
other position unchanged and the name and birthday intact) and returns the
"changed" message; when no phone equals `old` it returns the record
unchanged with the distinct "not found" message, not an error. -/
theorem change_phone_first_match (r : Record) (old new : String)
    (hnew : phoneInit new = Except.ok new) :
    (old ∉ r.phones →
      change_phone r old new = Except.ok (r, "Old phone number not found.")) ∧
    (∀ l1 l2, r.phones = l1 ++ old :: l2 → old ∉ l1 →
      change_phone r old new =
        Except.ok ({ r with phones := l1 ++ new :: l2 },
          "Phone number " ++ old ++ " changed to " ++ new ++ ".")) := by
  constructor
  · intro h
    unfold change_phone
    rw [changePhoneList_not_found old new r.phones h]
    rfl
  · intro l1 l2 hsplit hnot
    unfold change_phone
    rw [hsplit, changePhoneList_found old new hnew l1 l2 hnot]
    rfl

/-- Witness for C4 at the spec's worked example. -/
theorem change_phone_first_match_witness :
    change_phone ⟨"Ann", ["1234567890", "5555555555"], none⟩ "1234567890" "0987654321" =
      Except.ok (⟨"Ann", ["0987654321", "5555555555"], none⟩,
        "Phone number 1234567890 changed to 0987654321.") := by
  have h := (change_phone_first_match ⟨"Ann", ["1234567890", "5555555555"], none⟩
      "1234567890" "0987654321" (by decide)).2 [] ["5555555555"] rfl (by decide)
  exact h.trans (by decide)

/-- Claim C5 counterexample: `"5.6.2020"` is not of the shape `DD.MM.YYYY`
(day and month are single digits), yet birthday validation accepts it,
because CPython's `strptime` `%d` and `%m` also match one-digit fields. -/
theorem birthday_accepts_single_digit_fields :
    birthdayInit "5.6.2020" ⟨2024, 6, 10⟩ = Except.ok "5.6.2020" := by decide

/-- Claim C5 (amended): birthday validation succeeds exactly for strings
accepted by `strptime` with format `%d.%m.%Y` — day and month given as one
or two digits with no auto-correction of out-of-range values, year exactly
four digits — that denote a date on or before `today`; every other string,
and every parsed date strictly after `today`, fails with the `InvalidDate`
message. -/
theorem birthday_validation_characterization (s : String) (today : Date) :
    (birthdayInit s today = Except.ok s ↔
      ∃ d, parseDDMMYYYY s = some d ∧ dateLt today d = false) ∧
    ((parseDDMMYYYY s = none ∨ ∃ d, parseDDMMYYYY s = some d ∧ dateLt today d = true) →
      birthdayInit s today = Except.error "Invalid date format. Use DD.MM.YYYY") := by
  constructor
  · constructor
    · intro h
      cases hp : parseDDMMYYYY s with
      | none => simp [birthdayInit, hp] at h
      | some d =>
        refine ⟨d, rfl, ?_⟩
        cases hlt : dateLt today d
        · rfl
        · simp [birthdayInit, hp, hlt] at h
    · rintro ⟨d, hp, hlt⟩
      simp [birthdayInit, hp, hlt]
  · rintro (hp | ⟨d, hp, hlt⟩)
    · simp [birthdayInit, hp]
    · simp [birthdayInit, hp, hlt]

/-- Witness for the amended C5 theorem: `"31.02.2020"` (out-of-range day,
not auto-corrected) is rejected. -/
theorem birthday_validation_characterization_witness :
    birthdayInit "31.02.2020" ⟨2024, 6, 10⟩ =
      Except.error "Invalid date format. Use DD.MM.YYYY" :=
  (birthday_validation_characterization "31.02.2020" ⟨2024, 6, 10⟩).2 (Or.inl (by decide))

/-- Claim C6: loading the file produced by saving a directory yields that
directory back (all records, phone order and birthdays included — equality
of the modelled book values), and loading a path where no file exists
returns an empty directory. -/
theorem load_save_roundtrip (book : AddressBook) (fs : FileSystem) (filename : String) :
    load_data (save_data book fs filename) filename = book ∧
    (fs filename = none → load_data fs filename = []) := by
  constructor
  · unfold load_data save_data
    rw [if_pos rfl]
  · intro h
    unfold load_data
    rw [h]

/-- Witness for C6 on a directory with one record holding two phones and a
birthday, and an empty file system. -/
theorem load_save_roundtrip_witness :
    load_data (save_data [("Ann", ⟨"Ann", ["1234567890", "0987654321"], some "01.01.2000"⟩)]
        (fun _ => none) "addressbook.pkl") "addressbook.pkl" =
      [("Ann", ⟨"Ann", ["1234567890", "0987654321"], some "01.01.2000"⟩)] ∧
    load_data (fun _ => none) "addressbook.pkl" = [] :=
  ⟨(load_save_roundtrip [("Ann", ⟨"Ann", ["1234567890", "0987654321"], some "01.01.2000"⟩)]
      (fun _ => none) "addressbook.pkl").1,
   (load_save_roundtrip [("Ann", ⟨"Ann", ["1234567890", "0987654321"], some "01.01.2000"⟩)]
      (fun _ => none) "addressbook.pkl").2 rfl⟩

/-- Claim C7: when a mutation fails validation the record is left fully
unchanged: `add_phone` with an invalid phone string fails (the `Phone`
constructor raises before the append), and `change_phone` with a matching
old phone but malformed new phone fails (the constructor raises before the
assignment); in this state-passing embedding a failing operation returns
`Except.error` and produces no updated record at all. -/
theorem failed_mutation_leaves_record_unchanged (r : Record) (bad e : String)
    (hbad : phoneInit bad = Except.error e) (old : String) (hold : old ∈ r.phones) :
    add_phone r bad = Except.error e ∧ change_phone r old bad = Except.error e := by
  constructor
  · unfold add_phone
    rw [hbad]
    rfl
  · unfold change_phone
    rw [changePhoneList_error old bad e hbad r.phones hold]
    rfl

/-- Witness for C7 at a concrete record and malformed phone. -/
theorem failed_mutation_leaves_record_unchanged_witness :
    add_phone ⟨"Ann", ["1234567890"], none⟩ "12345" =
      Except.error "Phone number must be a 10-digit number." ∧
    change_phone ⟨"Ann", ["1234567890"], none⟩ "1234567890" "12345" =
      Except.error "Phone number must be a 10-digit number." :=
  failed_mutation_leaves_record_unchanged ⟨"Ann", ["1234567890"], none⟩ "12345"
    "Phone number must be a 10-digit number." (by decide) "1234567890" (by decide)

/-- Claim C8: the February-29 error branch is reachable: a record whose
stored (reachable, validated at creation in leap year 2020) birthday is
`29.02.2020`, queried with today `01.01.2025` — 2025 not a leap year, so
`(2025, 2, 29)` is not constructible — makes `get_upcoming_birthdays` raise
the date-construction error instead of returning a result; no resolution
(skip, clamp or shift) is implemented. -/
theorem feb29_date_construction_error :
    get_upcoming_birthdays [("Ann", ⟨"Ann", ["1234567890"], some "29.02.2020"⟩)]
      ⟨2025, 1, 1⟩ 7 = Except.error "day is out of range for month" := by
  decide

/-- Claim C9: the add-contact handler called with a name already present
appends the phone to the existing record (preserving its other phones, its
birthday, and every other entry of the book); only when the name is absent
is a fresh record with that single phone created and appended. -/
theorem add_contact_existing_appends (book : AddressBook) (name phone : String)
    (hph : phoneInit phone = Except.ok phone)
    (hnd : (book.map Prod.fst).Nodup) :
    (∀ r, findRecord book name = some r →
      add_contact name phone book =
        Except.ok (book.map (fun kv => if kv.1 = name then
            (kv.1, { kv.2 with phones := kv.2.phones ++ [phone] }) else kv),
          "Added phone " ++ phone ++ " to " ++ name ++ ".")) ∧
    (findRecord book name = none → ¬(name = "") →
      add_contact name phone book =
        Except.ok (book ++ [(name, ⟨name, [phone], none⟩)],
          "New contact " ++ name ++ " added with phone " ++ phone ++ ".")) := by
  constructor
  · intro r hfind
    unfold add_contact
    rw [hfind]
    simp only []
    rw [add_phone_ok r phone hph]
    simp only []
    have hmap : book.map (fun kv => if kv.1 = name then
          (kv.1, { r with phones := r.phones ++ [phone] }) else kv)
        = book.map (fun kv => if kv.1 = name then
          (kv.1, { kv.2 with phones := kv.2.phones ++ [phone] }) else kv) := by
      apply List.map_congr_left
      intro kv hkv
      by_cases hk : kv.1 = name
      · rw [if_pos hk, if_pos hk]
        have hkr := findRecord_unique name r book hnd hfind kv hkv hk
        rw [hkr]
      · rw [if_neg hk, if_neg hk]
    rw [hmap]
  · intro hfind hname
    unfold add_contact
    rw [hfind]
    simp only []
    have hrec : recordNew name = Except.ok ⟨name, [], none⟩ := by
      unfold recordNew nameInit
      rw [if_neg hname]
      rfl
    rw [hrec]
    simp only []
    have haddp : add_phone ⟨name, [], none⟩ phone = Except.ok ⟨name, [phone], none⟩ := by
      rw [add_phone_ok ⟨name, [], none⟩ phone hph]
      rfl
    rw [haddp]
    simp only []
    unfold add_record
    simp only []
    have hany : book.any (fun kv => decide (kv.1 = name)) = false := by
      cases hx : book.any (fun kv => decide (kv.1 = name))
      · rfl
      · exfalso
        obtain ⟨kv, hkv, hp2⟩ := List.any_eq_true.mp hx
        exact findRecord_none_keys name book hfind kv hkv (of_decide_eq_true hp2)
    simp [hany]

/-- Witness for C9: adding a phone for an existing name appends it. -/
theorem add_contact_existing_appends_witness :
    add_contact "Ann" "2222222222" [("Ann", ⟨"Ann", ["1111111111"], some "01.01.2000"⟩)] =
      Except.ok ([("Ann", ⟨"Ann", ["1111111111", "2222222222"], some "01.01.2000"⟩)],
        "Added phone 2222222222 to Ann.") := by
  have h := (add_contact_existing_appends
      [("Ann", ⟨"Ann", ["1111111111"], some "01.01.2000"⟩)] "Ann" "2222222222"
      (by decide) (by decide)).1
      ⟨"Ann", ["1111111111"], some "01.01.2000"⟩ (by decide)
  exact h.trans (by decide)

/-- Claim C10: for every well-formed date string denoting a date strictly
after `today`, constructing a `Birthday` fails, but the reported error
carries the parse-failure message "Invalid date format. Use DD.MM.YYYY"
rather than a future-date message, because the internal future-date
`ValueError` is caught by the same handler as parse errors. -/
theorem future_birthday_parse_message (s : String) (today d : Date)
    (hp : parseDDMMYYYY s = some d) (hf : dateLt today d = true) :
    birthdayInit s today = Except.error "Invalid date format. Use DD.MM.YYYY" := by
  simp [birthdayInit, hp, hf]

/-- Witness for C10 at a concrete future date. -/
theorem future_birthday_parse_message_witness :
    birthdayInit "01.01.2030" ⟨2024, 6, 10⟩ =
      Except.error "Invalid date format. Use DD.MM.YYYY" :=
  future_birthday_parse_message "01.01.2030" ⟨2024, 6, 10⟩ ⟨2030, 1, 1⟩
    (by decide) (by decide)
